import Mathlib

/-!
Verification development for the go-lexer repository.

The embedding models the lexer of `lexer.go` (the scanning engine with
cursor, token buffer, parser chain and putback stack) and the advanced
numeric literal parser of `clexer.go`.  Go runes are `Char`, the external
character source is the `src : List Char` field of the state, and the Go
loops are expressed with an explicit fuel argument instantiated with
`src.length + 1`, which is enough fuel on every state reachable by the
code (each loop iteration either consumes a source character or stops at
the rune-0 sentinel).
-/

/-- The sentinel rune 0 that `NextRune` yields at end of input. -/
def nulRune : Char := Char.ofNat 0

/-- Model of Go `unicode.IsSpace`: the full `White_Space` table
(U+0009..U+000D, U+0020, U+0085, U+00A0, U+1680, U+2000..U+200A,
U+2028, U+2029, U+202F, U+205F, U+3000). -/
def unicodeIsSpace (c : Char) : Bool :=
  let n := c.toNat
  if (9 ≤ n ∧ n ≤ 13) ∨ n = 32 ∨ n = 133 ∨ n = 160 ∨ n = 5760 ∨
     (8192 ≤ n ∧ n ≤ 8202) ∨ n = 8232 ∨ n = 8233 ∨ n = 8239 ∨ n = 8287 ∨ n = 12288
  then true else false

/-- Model of Go `unicode.IsLetter`, restricted to the ASCII range; the
theorems that depend on letter classification only instantiate it on
ASCII characters. -/
def unicodeIsLetter (c : Char) : Bool :=
  if ('A' ≤ c ∧ c ≤ 'Z') ∨ ('a' ≤ c ∧ c ≤ 'z') then true else false

/-- Model of Go `unicode.IsDigit`, restricted to the ASCII digits. -/
def unicodeIsDigit (c : Char) : Bool :=
  if '0' ≤ c ∧ c ≤ '9' then true else false

/-- `isOctDigit` from clexer.go. -/
def isOctDigit (c : Char) : Bool :=
  if '0' ≤ c ∧ c ≤ '7' then true else false

/-- `isDigit` from clexer.go. -/
def isDigit (c : Char) : Bool :=
  if '0' ≤ c ∧ c ≤ '9' then true else false

/-- `isHexDigit` from clexer.go. -/
def isHexDigit (c : Char) : Bool :=
  if ('0' ≤ c ∧ c ≤ '9') ∨ ('a' ≤ c ∧ c ≤ 'f') ∨ ('A' ≤ c ∧ c ≤ 'F')
  then true else false

/-- The `TokenType` constants of lexer.go. -/
inductive TokenType where
  | TOKEN_NULL
  | TOKEN_EOF
  | TOKEN_IDENTIFIER
  | TOKEN_NUMBER
  | TOKEN_STRING
  | TOKEN_UNKNOWN
deriving DecidableEq

/-- The `Token` struct of lexer.go. -/
structure Token where
  type : TokenType
  literal : String
  lineNumber : Nat
  linePos : Nat
deriving DecidableEq

/-- The `NumberType` constants of clexer.go. -/
inductive NumberType where
  | NUMBER_TYPE_INTEGER
  | NUMBER_TYPE_FLOAT
deriving DecidableEq

/-- The `NumberValue` struct of clexer.go.  The `Float` field is modelled
as an exact rational in lowest terms, represented as a numerator and a
positive denominator: the binary rounding performed by float64 is
abstracted away, so a float literal denotes the exact value of its
decimal text. -/
structure NumberValue where
  type : NumberType
  integer : Int
  float : Int × Nat
deriving DecidableEq

/-- The two sentinel errors of clexer.go. -/
inductive NumError where
  | InvalidNumberFormatError
  | MaximumNumberRangeError
deriving DecidableEq

/-- The error kinds carried by Go `strconv.NumError`. -/
inductive StrconvError where
  | ErrSyntax
  | ErrRange
deriving DecidableEq

/-- The sentinel errors of lexer.go; `GetToken` never returns one (its
error result is `nil` on every path), the type only records the shape of
the Go API. -/
inductive LexError where
  | NullArgumentError
deriving DecidableEq

/-- The `Lexer` struct of lexer.go: remaining source characters, line and
position bookkeeping, current rune, end-of-input flag, token buffer, last
token and putback stack.  The `value` field is the slot written by the
`ITokenBuilder.SetValue` call of clexer.go; the lexer.go code never
touches it. -/
structure LexState where
  src : List Char
  lineno : Nat
  pos : Nat
  r : Char
  eof : Bool
  buf : List Char
  lastToken : Token
  putbackTokens : List Token
  value : Option NumberValue
deriving DecidableEq

/-- `Lexer.NextRune` of lexer.go: once `eof` is set the state is left
unchanged, otherwise one character is taken from the source (an exhausted
source sets `eof` and the sentinel rune), updating line/position
bookkeeping by the character's UTF-8 width.  The rune the Go method
returns is the `r` field of the result. -/
def NextRune (s : LexState) : LexState :=
  if s.eof then s
  else
    match s.src with
    | [] => { s with r := nulRune, eof := true }
    | c :: cs =>
      if c = '\n' then { s with src := cs, lineno := s.lineno + 1, pos := 0, r := c }
      else { s with src := cs, pos := s.pos + c.utf8Size, r := c }

/-- `Lexer.AppendRune` of lexer.go: write the current rune to the token
buffer. -/
def AppendRune (s : LexState) : LexState :=
  { s with buf := s.buf ++ [s.r] }

/-- `Lexer.token` of lexer.go: build a `Token` from the buffer and the
line/position at construction time, record it as `lastToken` and return
it. -/
def token (s : LexState) (tokenType : TokenType) : Token × LexState :=
  let t : Token :=
    { type := tokenType, literal := s.buf.asString,
      lineNumber := s.lineno, linePos := s.pos }
  (t, { s with lastToken := t })

/-- The loop of `DefaultWhitespaceParser`: while the current rune is
whitespace, advance, stopping when `NextRune` yields the sentinel. -/
def DefaultWhitespaceParserLoop : Nat → LexState → LexState
  | 0, s => s
  | f + 1, s =>
      if unicodeIsSpace s.r then
        let s' := NextRune s
        if s'.r = nulRune then s' else DefaultWhitespaceParserLoop f s'
      else s

/-- `DefaultWhitespaceParser` of lexer.go (the outer `if IsSpace` of the
Go code is absorbed into the loop guard, which tests the same
condition). -/
def DefaultWhitespaceParser (s : LexState) : TokenType × LexState :=
  (TokenType.TOKEN_NULL, DefaultWhitespaceParserLoop (s.src.length + 1) s)

/-- The shared shape of the greedy `for p(r) { AppendRune; r = NextRune }`
loops of lexer.go and clexer.go. -/
def appendRuneLoop (p : Char → Bool) : Nat → LexState → LexState
  | 0, s => s
  | f + 1, s =>
      if p s.r then appendRuneLoop p f (NextRune (AppendRune s)) else s

/-- Continuation characters of an identifier: letter, underscore or
digit. -/
def identIsContinue (c : Char) : Bool :=
  unicodeIsLetter c || c == '_' || unicodeIsDigit c

/-- `DefaultIdentifierParser` of lexer.go. -/
def DefaultIdentifierParser (s : LexState) : TokenType × LexState :=
  if unicodeIsLetter s.r || s.r == '_' then
    (TokenType.TOKEN_IDENTIFIER, appendRuneLoop identIsContinue (s.src.length + 1) s)
  else (TokenType.TOKEN_NULL, s)

/-- `DefaultNumberParser` of lexer.go (the simple decimal-only number
parser). -/
def DefaultNumberParser (s : LexState) : TokenType × LexState :=
  if unicodeIsDigit s.r then
    (TokenType.TOKEN_NUMBER, appendRuneLoop unicodeIsDigit (s.src.length + 1) s)
  else (TokenType.TOKEN_NULL, s)

/-- The loop of `DefaultQuotedStringParser` in lexer.go: advance; stop on
the sentinel or on the quote mark (leaving the cursor on the closing
mark); otherwise append and continue. -/
def DefaultQuotedStringParserLoop (mark : Char) : Nat → LexState → LexState
  | 0, s => s
  | f + 1, s =>
      let s' := NextRune s
      if s'.r = nulRune then s'
      else if s'.r = mark then s'
      else DefaultQuotedStringParserLoop mark f (AppendRune s')

/-- `DefaultQuotedStringParser` of lexer.go. -/
def DefaultQuotedStringParser (s : LexState) : TokenType × LexState :=
  if s.r == '"' || s.r == Char.ofNat 39 then
    (TokenType.TOKEN_STRING, DefaultQuotedStringParserLoop s.r (s.src.length + 1) s)
  else (TokenType.TOKEN_NULL, s)

/-- The loop of the quoted string parser of the second draft
(src/unnamed/part_000), which additionally advances past the closing
quote mark before breaking. -/
def DefaultQuotedStringParserLoopV2 (mark : Char) : Nat → LexState → LexState
  | 0, s => s
  | f + 1, s =>
      let s' := NextRune s
      if s'.r = nulRune then s'
      else if s'.r = mark then NextRune s'
      else DefaultQuotedStringParserLoopV2 mark f (AppendRune s')

/-- `DefaultQuotedStringParser` of src/unnamed/part_000 (the variant that
advances past the closing quote). -/
def DefaultQuotedStringParserV2 (s : LexState) : TokenType × LexState :=
  if s.r == '"' || s.r == Char.ofNat 39 then
    (TokenType.TOKEN_STRING, DefaultQuotedStringParserLoopV2 s.r (s.src.length + 1) s)
  else (TokenType.TOKEN_NULL, s)

/-- The loop of `DefaultCommentParser`: advance until a newline or the
sentinel, appending nothing. -/
def DefaultCommentParserLoop : Nat → LexState → LexState
  | 0, s => s
  | f + 1, s =>
      let s' := NextRune s
      if s'.r = nulRune then s'
      else if s'.r = '\n' then s'
      else DefaultCommentParserLoop f s'

/-- `DefaultCommentParser` of lexer.go: consumes a `#` comment through
end of line and always declares no match. -/
def DefaultCommentParser (s : LexState) : TokenType × LexState :=
  if s.r == '#' then
    (TokenType.TOKEN_NULL, DefaultCommentParserLoop (s.src.length + 1) s)
  else (TokenType.TOKEN_NULL, s)

/-- The default parser chain installed by `NewTokenParsers` in
lexer.go. -/
def defaultParsers : List (LexState → TokenType × LexState) :=
  [DefaultIdentifierParser, DefaultNumberParser,
   DefaultQuotedStringParser, DefaultCommentParser]

/-- The chain loop of `GetToken`: try each parser in order, return its
token on the first non-null result; if every parser declares no match,
append the current rune, advance once, and emit an unknown token. -/
def runParsers : List (LexState → TokenType × LexState) → LexState → Token × LexState
  | [], s => token (NextRune (AppendRune s)) TokenType.TOKEN_UNKNOWN
  | p :: ps, s =>
      match p s with
      | (ty, s') =>
          if ty = TokenType.TOKEN_NULL then runParsers ps s' else token s' ty

/-- The scanning part of `Lexer.GetToken` (lexer.go lines 201-218),
reached when the putback stack is empty: skip whitespace, emit the EOF
token if the cursor is exhausted (note: before the buffer reset), reset
the buffer and run the chain.  Every path returns a `nil` error, modelled
as `none`. -/
def scanToken (s : LexState) : (Token × Option LexError) × LexState :=
  let s₁ := (DefaultWhitespaceParser s).2
  if s₁.eof then
    let ts := token s₁ TokenType.TOKEN_EOF
    ((ts.1, none), ts.2)
  else
    let ts := runParsers defaultParsers { s₁ with buf := [] }
    ((ts.1, none), ts.2)

/-- `Lexer.GetToken` of lexer.go: drain the putback stack (most recently
pushed first) without scanning, otherwise scan. -/
def GetToken (s : LexState) : (Token × Option LexError) × LexState :=
  match s.putbackTokens.getLast? with
  | some t =>
      ((t, none), { s with putbackTokens := s.putbackTokens.dropLast, lastToken := t })
  | none => scanToken s

/-- `Lexer.PutBack` of lexer.go: push the token (by value) on the back of
the putback list. -/
def PutBack (t : Token) (s : LexState) : LexState :=
  { s with putbackTokens := s.putbackTokens ++ [t] }

/-- `NewLexer` of lexer.go with a non-nil source: zero state, then one
priming `NextRune`. -/
def NewLexer (input : List Char) : LexState :=
  NextRune
    { src := input, lineno := 0, pos := 0, r := nulRune, eof := false,
      buf := [],
      lastToken :=
        { type := TokenType.TOKEN_NULL, literal := "", lineNumber := 0, linePos := 0 },
      putbackTokens := [], value := none }

/-- Number of characters the cursor can still deliver: the unread source
plus the pending current character when the end-of-input flag is not yet
set.  Scanning progress is measured by this quantity. -/
def remaining (s : LexState) : Nat :=
  s.src.length + (if s.eof then 0 else 1)

/-- Digit decoding of Go `strconv`: `0`-`9`, then letters (of either
case) valued from 10. -/
def strconvDigit (c : Char) : Option Nat :=
  if '0' ≤ c ∧ c ≤ '9' then some (c.toNat - 48)
  else if 'a' ≤ c ∧ c ≤ 'z' then some (c.toNat - 97 + 10)
  else if 'A' ≤ c ∧ c ≤ 'Z' then some (c.toNat - 65 + 10)
  else none

/-- Accumulate the digits of a literal in the given base; `none` when a
character is not a digit of the base. -/
def natFromDigits (base : Nat) (ds : List Char) : Option Nat :=
  ds.foldl
    (fun acc c =>
      match acc, strconvDigit c with
      | some n, some d => if d < base then some (n * base + d) else none
      | _, _ => none)
    (some 0)

/-- Model of Go `strconv.ParseInt(lit, base, 64)` for an explicit base:
an optional sign followed by at least one digit of the base, syntax error
otherwise; range error when the value does not fit a signed 64-bit
integer. -/
def goParseInt (lit : List Char) (base : Nat) : Except StrconvError Int :=
  let signed : Bool × List Char :=
    match lit with
    | c :: rest =>
        if c == '+' then (false, rest)
        else if c == '-' then (true, rest)
        else (false, lit)
    | [] => (false, [])
  let neg := signed.1
  let digits := signed.2
  if digits.isEmpty then Except.error StrconvError.ErrSyntax
  else
    match natFromDigits base digits with
    | none => Except.error StrconvError.ErrSyntax
    | some n =>
        if neg then
          if n > 2 ^ 63 then Except.error StrconvError.ErrRange
          else Except.ok (-(n : Int))
        else
          if n > 2 ^ 63 - 1 then Except.error StrconvError.ErrRange
          else Except.ok (n : Int)

/-- Decimal value of a digit string. -/
def decDigitsVal (ds : List Char) : Nat :=
  ds.foldl (fun acc c => acc * 10 + (c.toNat - 48)) 0

/-- Reduce a numerator-denominator pair to lowest terms. -/
def ratNorm (num : Int) (den : Nat) : Int × Nat :=
  let g := Nat.gcd num.natAbs den
  (num / (g : Int), den / g)

/-- Model of Go `strconv.ParseFloat(lit, 64)` on decimal literals: an
optional sign, digits with an optional fractional part (at least one
mantissa digit in total), and an optional exponent with an optional sign
and at least one digit.  The value is the exact rational of the text in
lowest terms; range error at the magnitude from which float64 rounds to
infinity (2^1024 - 2^970). -/
def goParseFloat (lit : List Char) : Except StrconvError (Int × Nat) :=
  let signed : Bool × List Char :=
    match lit with
    | c :: rest =>
        if c == '+' then (false, rest)
        else if c == '-' then (true, rest)
        else (false, lit)
    | [] => (false, [])
  let neg := signed.1
  let s1 := signed.2
  let intPart := s1.takeWhile isDigit
  let s2 := s1.drop intPart.length
  let fracSplit : List Char × List Char :=
    match s2 with
    | c :: rest =>
        if c == '.' then
          (rest.takeWhile isDigit, rest.drop (rest.takeWhile isDigit).length)
        else ([], s2)
    | [] => ([], s2)
  let fracPart := fracSplit.1
  let s3 := fracSplit.2
  if (intPart ++ fracPart).isEmpty then Except.error StrconvError.ErrSyntax
  else
    let expRes : Except StrconvError Int :=
      match s3 with
      | [] => Except.ok 0
      | e :: rest =>
          if e == 'e' || e == 'E' then
            let esigned : Int × List Char :=
              match rest with
              | c :: r2 =>
                  if c == '+' then (1, r2)
                  else if c == '-' then (-1, r2)
                  else (1, rest)
              | [] => (1, [])
            let eDigits := esigned.2.takeWhile isDigit
            if eDigits.isEmpty then Except.error StrconvError.ErrSyntax
            else if (esigned.2.drop eDigits.length).isEmpty then
              Except.ok (esigned.1 * (decDigitsVal eDigits : Int))
            else Except.error StrconvError.ErrSyntax
          else Except.error StrconvError.ErrSyntax
    match expRes with
    | Except.error err => Except.error err
    | Except.ok e =>
        let m := decDigitsVal (intPart ++ fracPart)
        let magNum : Nat := if 0 ≤ e then m * 10 ^ e.toNat else m
        let magDen : Nat :=
          if 0 ≤ e then 10 ^ fracPart.length
          else 10 ^ fracPart.length * 10 ^ (-e).toNat
        if (2 ^ 1024 - 2 ^ 970) * magDen ≤ magNum then Except.error StrconvError.ErrRange
        else Except.ok (ratNorm (if neg then -(magNum : Int) else (magNum : Int)) magDen)

/-- The integer arm of cNumberParser (clexer.go, after the base
dispatch): convert the buffered literal with `ParseInt`, mapping the two
`strconv` error kinds to the two sentinel errors, otherwise attach an
integer `NumberValue`. -/
def cNumberInt (base : Nat) (s : LexState) : (TokenType × Option NumError) × LexState :=
  match goParseInt s.buf base with
  | Except.error StrconvError.ErrSyntax =>
      ((TokenType.TOKEN_NULL, some NumError.InvalidNumberFormatError), s)
  | Except.error StrconvError.ErrRange =>
      ((TokenType.TOKEN_NULL, some NumError.MaximumNumberRangeError), s)
  | Except.ok v =>
      ((TokenType.TOKEN_NUMBER, none),
        { s with
            value := some { type := NumberType.NUMBER_TYPE_INTEGER, integer := v, float := (0, 1) } })

/-- The `ParseFloat` call of the float arm of cNumberParser with the same
error mapping, attaching a float `NumberValue` on success. -/
def cNumberFloatFinish (s : LexState) : (TokenType × Option NumError) × LexState :=
  match goParseFloat s.buf with
  | Except.error StrconvError.ErrSyntax =>
      ((TokenType.TOKEN_NULL, some NumError.InvalidNumberFormatError), s)
  | Except.error StrconvError.ErrRange =>
      ((TokenType.TOKEN_NULL, some NumError.MaximumNumberRangeError), s)
  | Except.ok v =>
      ((TokenType.TOKEN_NUMBER, none),
        { s with
            value := some { type := NumberType.NUMBER_TYPE_FLOAT, integer := 0, float := v } })

/-- The float arm of cNumberParser (clexer.go lines 89-131): append the
dot, consume fractional digits, then an optional exponent whose marker
and sign must be followed by at least one digit. -/
def cNumberFloat (s : LexState) : (TokenType × Option NumError) × LexState :=
  let sa := NextRune (AppendRune s)
  let s1 := appendRuneLoop isDigit (sa.src.length + 1) sa
  if s1.r == 'e' || s1.r == 'E' then
    let sb := NextRune (AppendRune s1)
    let sc := if sb.r == '+' || sb.r == '-' then NextRune (AppendRune sb) else sb
    if isDigit sc.r then
      cNumberFloatFinish (appendRuneLoop isDigit (sc.src.length + 1) sc)
    else ((TokenType.TOKEN_NULL, some NumError.InvalidNumberFormatError), sc)
  else cNumberFloatFinish s1

/-- The common tail of cNumberParser after the base dispatch (clexer.go
line 71): integer conversion unless the current rune is a dot. -/
def cNumberAfterInt (base : Nat) (s : LexState) : (TokenType × Option NumError) × LexState :=
  if s.r == '.' then cNumberFloat s else cNumberInt base s

/-- `cNumberParser` of clexer.go: dispatch on a leading `0` to
hexadecimal (requiring at least one hex digit after the prefix) or octal
(greedy, possibly empty body), otherwise decimal; note that the
characters consumed by the dispatch itself (the leading `0` and any
`x`/`X`) are never appended to the buffer. -/
def cNumberParser (s : LexState) : (TokenType × Option NumError) × LexState :=
  if isDigit s.r then
    if s.r == '0' then
      let s1 := NextRune s
      if s1.r == 'x' || s1.r == 'X' then
        let s2 := NextRune s1
        if isHexDigit s2.r then
          cNumberAfterInt 16 (appendRuneLoop isHexDigit (s2.src.length + 1) s2)
        else ((TokenType.TOKEN_NULL, some NumError.InvalidNumberFormatError), s2)
      else
        cNumberAfterInt 8 (appendRuneLoop isOctDigit (s1.src.length + 1) s1)
    else
      cNumberAfterInt 10 (appendRuneLoop isDigit (s.src.length + 1) s)
  else ((TokenType.TOKEN_NULL, none), s)

/-! Basic facts about the cursor and the progress measure. -/

theorem NextRune_eof (s : LexState) (h : s.eof = true) : NextRune s = s := by
  simp [NextRune, h]

theorem AppendRune_eof (s : LexState) : (AppendRune s).eof = s.eof := rfl

theorem AppendRune_r (s : LexState) : (AppendRune s).r = s.r := rfl

theorem remaining_AppendRune (s : LexState) : remaining (AppendRune s) = remaining s := rfl

theorem remaining_buf (s : LexState) (b : List Char) :
    remaining { s with buf := b } = remaining s := rfl

theorem remaining_token (s : LexState) (ty : TokenType) :
    remaining (token s ty).2 = remaining s := rfl

theorem remaining_NextRune_le (s : LexState) : remaining (NextRune s) ≤ remaining s := by
  by_cases he : s.eof
  · simp [NextRune, he]
  · cases hs : s.src with
    | nil => simp [NextRune, he, hs, remaining]
    | cons c cs =>
        by_cases hnl : c = '\n' <;>
          simp [NextRune, he, hs, hnl, remaining] <;> omega

theorem remaining_NextRune_lt (s : LexState) (he : s.eof = false) :
    remaining (NextRune s) < remaining s := by
  cases hs : s.src with
  | nil => simp [NextRune, he, hs, remaining]
  | cons c cs =>
      by_cases hnl : c = '\n' <;>
        simp [NextRune, he, hs, hnl, remaining] <;> omega

theorem remaining_appendRuneLoop_le (p : Char → Bool) :
    ∀ (f : Nat) (s : LexState), remaining (appendRuneLoop p f s) ≤ remaining s := by
  intro f
  induction f with
  | zero => intro s; exact Nat.le_refl _
  | succ f ih =>
      intro s
      by_cases hp : p s.r
      · simp only [appendRuneLoop, hp, if_true]
        calc remaining (appendRuneLoop p f (NextRune (AppendRune s)))
            ≤ remaining (NextRune (AppendRune s)) := ih _
          _ ≤ remaining (AppendRune s) := remaining_NextRune_le _
          _ = remaining s := remaining_AppendRune s
      · simp [appendRuneLoop, hp]

theorem remaining_appendRuneLoop_lt (p : Char → Bool) (f : Nat) (s : LexState)
    (hp : p s.r = true) (he : s.eof = false) :
    remaining (appendRuneLoop p (f + 1) s) < remaining s := by
  simp only [appendRuneLoop, hp, if_true]
  calc remaining (appendRuneLoop p f (NextRune (AppendRune s)))
      ≤ remaining (NextRune (AppendRune s)) := remaining_appendRuneLoop_le _ _ _
    _ < remaining (AppendRune s) := remaining_NextRune_lt _ (by simpa [AppendRune_eof] using he)
    _ = remaining s := remaining_AppendRune s

theorem remaining_wsLoop_le :
    ∀ (f : Nat) (s : LexState), remaining (DefaultWhitespaceParserLoop f s) ≤ remaining s := by
  intro f
  induction f with
  | zero => intro s; exact Nat.le_refl _
  | succ f ih =>
      intro s
      by_cases hsp : unicodeIsSpace s.r
      · simp only [DefaultWhitespaceParserLoop, hsp, if_true]
        by_cases hn : (NextRune s).r = nulRune
        · simpa [hn] using remaining_NextRune_le s
        · simp only [hn, if_false]
          exact Nat.le_trans (ih _) (remaining_NextRune_le s)
      · simp [DefaultWhitespaceParserLoop, hsp]

theorem remaining_wsLoop_lt (f : Nat) (s : LexState)
    (hsp : unicodeIsSpace s.r = true) (he : s.eof = false) :
    remaining (DefaultWhitespaceParserLoop (f + 1) s) < remaining s := by
  simp only [DefaultWhitespaceParserLoop, hsp, if_true]
  by_cases hn : (NextRune s).r = nulRune
  · simpa [hn] using remaining_NextRune_lt s he
  · simp only [hn, if_false]
    exact Nat.lt_of_le_of_lt (remaining_wsLoop_le _ _) (remaining_NextRune_lt s he)

theorem remaining_qsLoop_le (mark : Char) :
    ∀ (f : Nat) (s : LexState),
      remaining (DefaultQuotedStringParserLoop mark f s) ≤ remaining s := by
  intro f
  induction f with
  | zero => intro s; exact Nat.le_refl _
  | succ f ih =>
      intro s
      simp only [DefaultQuotedStringParserLoop]
      split
      · exact remaining_NextRune_le s
      · split
        · exact remaining_NextRune_le s
        · calc remaining (DefaultQuotedStringParserLoop mark f (AppendRune (NextRune s)))
              ≤ remaining (AppendRune (NextRune s)) := ih _
            _ = remaining (NextRune s) := remaining_AppendRune _
            _ ≤ remaining s := remaining_NextRune_le s

theorem remaining_qsLoop_lt (mark : Char) (f : Nat) (s : LexState) (he : s.eof = false) :
    remaining (DefaultQuotedStringParserLoop mark (f + 1) s) < remaining s := by
  simp only [DefaultQuotedStringParserLoop]
  split
  · exact remaining_NextRune_lt s he
  · split
    · exact remaining_NextRune_lt s he
    · calc remaining (DefaultQuotedStringParserLoop mark f (AppendRune (NextRune s)))
          ≤ remaining (AppendRune (NextRune s)) := remaining_qsLoop_le _ _ _
        _ = remaining (NextRune s) := remaining_AppendRune _
        _ < remaining s := remaining_NextRune_lt s he

theorem remaining_commentLoop_le :
    ∀ (f : Nat) (s : LexState),
      remaining (DefaultCommentParserLoop f s) ≤ remaining s := by
  intro f
  induction f with
  | zero => intro s; exact Nat.le_refl _
  | succ f ih =>
      intro s
      simp only [DefaultCommentParserLoop]
      split
      · exact remaining_NextRune_le s
      · split
        · exact remaining_NextRune_le s
        · exact Nat.le_trans (ih _) (remaining_NextRune_le s)

theorem remaining_commentLoop_lt (f : Nat) (s : LexState) (he : s.eof = false) :
    remaining (DefaultCommentParserLoop (f + 1) s) < remaining s := by
  simp only [DefaultCommentParserLoop]
  split
  · exact remaining_NextRune_lt s he
  · split
    · exact remaining_NextRune_lt s he
    · exact Nat.lt_of_le_of_lt (remaining_commentLoop_le _ _) (remaining_NextRune_lt s he)

/-! No-match and monotonicity facts for the default chain parsers. -/

theorem identParser_noMatch (s : LexState)
    (h : (unicodeIsLetter s.r || s.r == '_') = false) :
    DefaultIdentifierParser s = (TokenType.TOKEN_NULL, s) := by
  simp [DefaultIdentifierParser, h]

theorem numberParser_noMatch (s : LexState) (h : unicodeIsDigit s.r = false) :
    DefaultNumberParser s = (TokenType.TOKEN_NULL, s) := by
  simp [DefaultNumberParser, h]

theorem quotedParser_noMatch (s : LexState)
    (h : (s.r == '"' || s.r == Char.ofNat 39) = false) :
    DefaultQuotedStringParser s = (TokenType.TOKEN_NULL, s) := by
  simp [DefaultQuotedStringParser, h]

theorem commentParser_noMatch (s : LexState) (h : (s.r == '#') = false) :
    DefaultCommentParser s = (TokenType.TOKEN_NULL, s) := by
  simp [DefaultCommentParser, h]

theorem remaining_identParser_le (s : LexState) :
    remaining (DefaultIdentifierParser s).2 ≤ remaining s := by
  cases h : (unicodeIsLetter s.r || s.r == '_') with
  | false => rw [identParser_noMatch s h]
  | true =>
      simp only [DefaultIdentifierParser, h, if_true]
      exact remaining_appendRuneLoop_le _ _ _

theorem remaining_numberParser_le (s : LexState) :
    remaining (DefaultNumberParser s).2 ≤ remaining s := by
  cases h : unicodeIsDigit s.r with
  | false => rw [numberParser_noMatch s h]
  | true =>
      simp only [DefaultNumberParser, h, if_true]
      exact remaining_appendRuneLoop_le _ _ _

theorem remaining_quotedParser_le (s : LexState) :
    remaining (DefaultQuotedStringParser s).2 ≤ remaining s := by
  cases h : (s.r == '"' || s.r == Char.ofNat 39) with
  | false => rw [quotedParser_noMatch s h]
  | true =>
      simp only [DefaultQuotedStringParser, h, if_true]
      exact remaining_qsLoop_le _ _ _

theorem remaining_commentParser_le (s : LexState) :
    remaining (DefaultCommentParser s).2 ≤ remaining s := by
  cases h : (s.r == '#') with
  | false => rw [commentParser_noMatch s h]
  | true =>
      simp only [DefaultCommentParser, h, if_true]
      exact remaining_commentLoop_le _ _

theorem remaining_runParsers_le :
    ∀ (ps : List (LexState → TokenType × LexState)),
      (∀ p ∈ ps, ∀ s, remaining (p s).2 ≤ remaining s) →
      ∀ s, remaining (runParsers ps s).2 ≤ remaining s := by
  intro ps
  induction ps with
  | nil =>
      intro _ s
      simp only [runParsers, remaining_token]
      calc remaining (NextRune (AppendRune s))
          ≤ remaining (AppendRune s) := remaining_NextRune_le _
        _ = remaining s := remaining_AppendRune _
  | cons p ps ih =>
      intro hmem s
      have hps : ∀ q ∈ ps, ∀ s, remaining (q s).2 ≤ remaining s :=
        fun q hq => hmem q (List.mem_cons_of_mem p hq)
      have hp : remaining (p s).2 ≤ remaining s := hmem p (List.mem_cons_self p ps) s
      rcases hps' : p s with ⟨ty, s'⟩
      rw [hps'] at hp
      simp only [runParsers, hps']
      by_cases hty : ty = TokenType.TOKEN_NULL
      · simp only [hty, if_true]
        exact Nat.le_trans (ih hps s') hp
      · simp only [hty, if_false, remaining_token]
        exact hp

theorem remaining_runDefault_le (s : LexState) :
    remaining (runParsers defaultParsers s).2 ≤ remaining s := by
  refine remaining_runParsers_le defaultParsers ?_ s
  intro p hp s'
  simp only [defaultParsers, List.mem_cons, List.mem_singleton] at hp
  rcases hp with rfl | rfl | rfl | hp
  · exact remaining_identParser_le s'
  · exact remaining_numberParser_le s'
  · exact remaining_quotedParser_le s'
  · rcases hp with rfl | hp
    · exact remaining_commentParser_le s'
    · simp at hp

theorem runDefault_lt (s : LexState) (he : s.eof = false) :
    remaining (runParsers defaultParsers s).2 < remaining s := by
  cases hA : (unicodeIsLetter s.r || s.r == '_') with
  | true =>
      have hcont : identIsContinue s.r = true := by
        simp only [identIsContinue]
        cases h1 : unicodeIsLetter s.r with
        | true => rfl
        | false =>
            rw [h1] at hA
            simp only [Bool.false_or] at hA
            simp [hA]
      have hps : DefaultIdentifierParser s
          = (TokenType.TOKEN_IDENTIFIER, appendRuneLoop identIsContinue (s.src.length + 1) s) := by
        simp [DefaultIdentifierParser, hA]
      simp [defaultParsers, runParsers, hps, remaining_token]
      exact remaining_appendRuneLoop_lt _ _ _ hcont he
  | false =>
      have hid := identParser_noMatch s hA
      cases hB : unicodeIsDigit s.r with
      | true =>
          have hps : DefaultNumberParser s
              = (TokenType.TOKEN_NUMBER, appendRuneLoop unicodeIsDigit (s.src.length + 1) s) := by
            simp [DefaultNumberParser, hB]
          simp [defaultParsers, runParsers, hid, hps, remaining_token]
          exact remaining_appendRuneLoop_lt _ _ _ hB he
      | false =>
          have hnum := numberParser_noMatch s hB
          cases hC : (s.r == '"' || s.r == Char.ofNat 39) with
          | true =>
              have hps : DefaultQuotedStringParser s
                  = (TokenType.TOKEN_STRING,
                      DefaultQuotedStringParserLoop s.r (s.src.length + 1) s) := by
                simp only [DefaultQuotedStringParser, hC, if_true]
              simp [defaultParsers, runParsers, hid, hnum, hps, remaining_token]
              exact remaining_qsLoop_lt _ _ _ he
          | false =>
              have hqs := quotedParser_noMatch s hC
              cases hD : (s.r == '#') with
              | true =>
                  have hps : DefaultCommentParser s
                      = (TokenType.TOKEN_NULL,
                          DefaultCommentParserLoop (s.src.length + 1) s) := by
                    simp only [DefaultCommentParser, hD, if_true]
                  simp [defaultParsers, runParsers, hid, hnum, hqs, hps, remaining_token]
                  calc remaining (NextRune (AppendRune (DefaultCommentParserLoop (s.src.length + 1) s)))
                      ≤ remaining (AppendRune (DefaultCommentParserLoop (s.src.length + 1) s)) :=
                        remaining_NextRune_le _
                    _ = remaining (DefaultCommentParserLoop (s.src.length + 1) s) :=
                        remaining_AppendRune _
                    _ < remaining s := remaining_commentLoop_lt _ _ he
              | false =>
                  have hcm := commentParser_noMatch s hD
                  simp [defaultParsers, runParsers, hid, hnum, hqs, hcm, remaining_token]
                  have heA : (AppendRune s).eof = false := by
                    rw [AppendRune_eof]; exact he
                  calc remaining (NextRune (AppendRune s))
                      < remaining (AppendRune s) := remaining_NextRune_lt _ heA
                    _ = remaining s := remaining_AppendRune _

theorem wsLoop_noSpace (s : LexState) (h : unicodeIsSpace s.r = false) :
    ∀ f, DefaultWhitespaceParserLoop f s = s := by
  intro f
  cases f with
  | zero => rfl
  | succ f => simp [DefaultWhitespaceParserLoop, h]


theorem scanToken_progress (s : LexState) (he : s.eof = false) :
    remaining (scanToken s).2 < remaining s := by
  simp only [scanToken]
  by_cases hsp : unicodeIsSpace s.r = true
  · have hwl : remaining (DefaultWhitespaceParser s).2 < remaining s :=
      remaining_wsLoop_lt s.src.length s hsp he
    by_cases hwe : (DefaultWhitespaceParser s).2.eof = true
    · rw [if_pos hwe]
      show remaining (token (DefaultWhitespaceParser s).2 TokenType.TOKEN_EOF).2 < remaining s
      rw [remaining_token]
      exact hwl
    · rw [if_neg hwe]
      show remaining
          (runParsers defaultParsers { (DefaultWhitespaceParser s).2 with buf := [] }).2
          < remaining s
      calc remaining (runParsers defaultParsers { (DefaultWhitespaceParser s).2 with buf := [] }).2
          ≤ remaining { (DefaultWhitespaceParser s).2 with buf := [] } := remaining_runDefault_le _
        _ = remaining (DefaultWhitespaceParser s).2 := remaining_buf _ _
        _ < remaining s := hwl
  · have hsp' : unicodeIsSpace s.r = false := by simpa using hsp
    have hws : (DefaultWhitespaceParser s).2 = s := wsLoop_noSpace s hsp' _
    rw [hws, if_neg (by rw [he]; exact Bool.false_ne_true)]
    show remaining (runParsers defaultParsers { s with buf := [] }).2 < remaining s
    calc remaining (runParsers defaultParsers { s with buf := [] }).2
        < remaining { s with buf := [] } := runDefault_lt _ he
      _ = remaining s := remaining_buf _ _

theorem GetToken_progress (s : LexState) (hpb : s.putbackTokens = []) (he : s.eof = false) :
    remaining (GetToken s).2 < remaining s := by
  have h : GetToken s = scanToken s := by
    simp [GetToken, hpb]
  rw [h]
  exact scanToken_progress s he

theorem NextRune_buf (s : LexState) : (NextRune s).buf = s.buf := by
  by_cases he : s.eof
  · simp [NextRune, he]
  · cases hs : s.src with
    | nil => simp [NextRune, he, hs]
    | cons c cs => by_cases hnl : c = '\n' <;> simp [NextRune, he, hs, hnl]

theorem NextRune_src (s : LexState) (he : s.eof = false) :
    (NextRune s).src = s.src.tail := by
  cases hs : s.src with
  | nil => simp [NextRune, he, hs]
  | cons c cs => by_cases hnl : c = '\n' <;> simp [NextRune, he, hs, hnl]

theorem NextRune_eofOut (s : LexState) (he : s.eof = false) :
    (NextRune s).eof = s.src.isEmpty := by
  cases hs : s.src with
  | nil => simp [NextRune, he, hs]
  | cons c cs => by_cases hnl : c = '\n' <;> simp [NextRune, he, hs, hnl]

theorem NextRune_putback (s : LexState) : (NextRune s).putbackTokens = s.putbackTokens := by
  by_cases he : s.eof
  · simp [NextRune, he]
  · cases hs : s.src with
    | nil => simp [NextRune, he, hs]
    | cons c cs => by_cases hnl : c = '\n' <;> simp [NextRune, he, hs, hnl]

/-- C2: if every parser in the default chain declares no match for the
current character (which, for the default parsers, means the character is
not whitespace, not a letter or underscore, not a digit, not a quote mark
and not a comment mark, so that none of them consumes anything), then
`GetToken` appends exactly that one character to the buffer, advances the
cursor exactly once, and returns an unknown-type token containing that
single character with a nil error; and, independently of the character
class, every `GetToken` call with an empty putback stack on a
non-exhausted cursor strictly decreases the number of characters the
cursor can still deliver, so scanning always makes forward progress. -/
theorem getToken_unknown_fallback_and_progress (s : LexState)
    (hpb : s.putbackTokens = []) (he : s.eof = false) :
    ((unicodeIsSpace s.r = false → unicodeIsLetter s.r = false → s.r ≠ '_' →
      unicodeIsDigit s.r = false → s.r ≠ '"' → s.r ≠ Char.ofNat 39 → s.r ≠ '#' →
        (GetToken s).1.1.type = TokenType.TOKEN_UNKNOWN ∧
        (GetToken s).1.1.literal = [s.r].asString ∧
        (GetToken s).1.2 = none ∧
        (GetToken s).2.buf = [s.r] ∧
        (GetToken s).2.src = s.src.tail ∧
        (GetToken s).2.eof = s.src.isEmpty)) ∧
    remaining (GetToken s).2 < remaining s := by
  have hget : GetToken s = scanToken s := by simp [GetToken, hpb]
  constructor
  · intro hsp hl hu hd hq1 hq2 hc
    rw [hget]
    have hws : (DefaultWhitespaceParser s).2 = s := wsLoop_noSpace s hsp _
    simp only [scanToken, hws]
    rw [if_neg (by rw [he]; exact Bool.false_ne_true)]
    have hall : runParsers defaultParsers { s with buf := [] } =
        token (NextRune (AppendRune { s with buf := [] })) TokenType.TOKEN_UNKNOWN := by
      have hid := identParser_noMatch { s with buf := [] } (by simp [hl, hu])
      have hnum := numberParser_noMatch { s with buf := [] } (by simp [hd])
      have hqs := quotedParser_noMatch { s with buf := [] } (by simp [hq1, hq2])
      have hcm := commentParser_noMatch { s with buf := [] } (by simp [hc])
      simp [defaultParsers, runParsers, hid, hnum, hqs, hcm]
    rw [hall]
    have heA : (AppendRune { s with buf := [] }).eof = false := he
    have hbuf : (NextRune (AppendRune { s with buf := [] })).buf = [s.r] := by
      rw [NextRune_buf]; rfl
    have hsrc : (NextRune (AppendRune { s with buf := [] })).src = s.src.tail := by
      rw [NextRune_src _ heA]; rfl
    have heof : (NextRune (AppendRune { s with buf := [] })).eof = s.src.isEmpty := by
      rw [NextRune_eofOut _ heA]; rfl
    refine ⟨rfl, ?_, rfl, ?_, ?_, ?_⟩
    · show (NextRune (AppendRune { s with buf := [] })).buf.asString = [s.r].asString
      rw [hbuf]
    · show (NextRune (AppendRune { s with buf := [] })).buf = [s.r]
      exact hbuf
    · show (NextRune (AppendRune { s with buf := [] })).src = s.src.tail
      exact hsrc
    · show (NextRune (AppendRune { s with buf := [] })).eof = s.src.isEmpty
      exact heof
  · rw [hget]
    exact scanToken_progress s he

/-- C1: pushing back a token and calling `GetToken` again returns exactly
that token with a nil error, leaving every other component of the lexer
state (cursor fields, buffer, source, putback stack) unchanged, so no
scanning happens and no character is read; with two tokens pushed back,
successive `GetToken` calls drain them in last-in-first-out order and the
state after draining differs from the original only in `lastToken`, so
forward scanning resumes from the original forward position. -/
theorem getToken_putBack_roundtrip (s : LexState) (t t₁ t₂ : Token) :
    GetToken (PutBack t s) = ((t, none), { s with lastToken := t }) ∧
    GetToken (PutBack t₂ (PutBack t₁ s)) =
      ((t₂, none), PutBack t₁ { s with lastToken := t₂ }) ∧
    GetToken (PutBack t₁ { s with lastToken := t₂ }) =
      ((t₁, none), { s with lastToken := t₁ }) := by
  refine ⟨?_, ?_, ?_⟩ <;>
    simp [GetToken, PutBack, List.getLast?_concat, List.dropLast_concat]

/-- C10: `GetToken` consults the putback stack before the end-of-input
check, so a token pushed back after the source is exhausted is still
returned unchanged with a nil error by the next call, rather than being
shadowed by an end-of-stream token. -/
theorem getToken_putBack_after_eof (s : LexState) (t : Token) (he : s.eof = true) :
    GetToken (PutBack t s) = ((t, none), { s with lastToken := t }) := by
  simp [GetToken, PutBack, List.getLast?_concat, List.dropLast_concat]

/-- Witness for C10 at a concrete exhausted lexer: scan the one-token
input "a" to exhaustion, push back a token and get it again. -/
theorem getToken_putBack_after_eof_witness :
    GetToken (PutBack { type := TokenType.TOKEN_IDENTIFIER, literal := "a", lineNumber := 0, linePos := 1 }
        (GetToken (NewLexer "a".toList)).2) =
      (({ type := TokenType.TOKEN_IDENTIFIER, literal := "a", lineNumber := 0, linePos := 1 }, none),
        { (GetToken (NewLexer "a".toList)).2 with
            lastToken := { type := TokenType.TOKEN_IDENTIFIER, literal := "a", lineNumber := 0, linePos := 1 } }) :=
  getToken_putBack_after_eof (GetToken (NewLexer "a".toList)).2
    { type := TokenType.TOKEN_IDENTIFIER, literal := "a", lineNumber := 0, linePos := 1 }
    (by decide)

/-- C9: once the end-of-input flag is set (the current rune is then the
sentinel 0, which is the only way lexer.go ever sets the flag), `NextRune`
leaves the whole cursor state unchanged and keeps returning the sentinel
rune, and `GetToken` with an empty putback stack returns an end-of-stream
token built from the current state without reading from the source (the
returned state differs only in `lastToken`). -/
theorem eof_flag_sticky (s : LexState) (he : s.eof = true) (hr : s.r = nulRune) :
    NextRune s = s ∧ (NextRune s).r = nulRune ∧
    (s.putbackTokens = [] →
      GetToken s =
        (({ type := TokenType.TOKEN_EOF, literal := s.buf.asString,
            lineNumber := s.lineno, linePos := s.pos }, none),
          { s with lastToken :=
              { type := TokenType.TOKEN_EOF, literal := s.buf.asString,
                lineNumber := s.lineno, linePos := s.pos } })) := by
  refine ⟨NextRune_eof s he, ?_, ?_⟩
  · rw [NextRune_eof s he, hr]
  · intro hpb
    have hsp : unicodeIsSpace s.r = false := by rw [hr]; rfl
    have hws : (DefaultWhitespaceParser s).2 = s := wsLoop_noSpace s hsp _
    simp [GetToken, hpb, scanToken, hws, he, token]

/-- Witness for C9 at a concrete exhausted lexer state. -/
theorem eof_flag_sticky_witness :
    NextRune (GetToken (NewLexer "a".toList)).2 = (GetToken (NewLexer "a".toList)).2 ∧
    (NextRune (GetToken (NewLexer "a".toList)).2).r = nulRune ∧
    ((GetToken (NewLexer "a".toList)).2.putbackTokens = [] →
      GetToken (GetToken (NewLexer "a".toList)).2 =
        (({ type := TokenType.TOKEN_EOF,
            literal := (GetToken (NewLexer "a".toList)).2.buf.asString,
            lineNumber := (GetToken (NewLexer "a".toList)).2.lineno,
            linePos := (GetToken (NewLexer "a".toList)).2.pos }, none),
          { (GetToken (NewLexer "a".toList)).2 with lastToken :=
              { type := TokenType.TOKEN_EOF,
                literal := (GetToken (NewLexer "a".toList)).2.buf.asString,
                lineNumber := (GetToken (NewLexer "a".toList)).2.lineno,
                linePos := (GetToken (NewLexer "a".toList)).2.pos } })) :=
  eof_flag_sticky (GetToken (NewLexer "a".toList)).2 (by decide) (by decide)

/-- Witness for C2 at the concrete input "@ab", whose first character
matches no default parser. -/
theorem getToken_unknown_fallback_and_progress_witness :
    ((GetToken (NewLexer "@ab".toList)).1.1.type = TokenType.TOKEN_UNKNOWN ∧
     (GetToken (NewLexer "@ab".toList)).1.1.literal = [(NewLexer "@ab".toList).r].asString ∧
     (GetToken (NewLexer "@ab".toList)).1.2 = none ∧
     (GetToken (NewLexer "@ab".toList)).2.buf = [(NewLexer "@ab".toList).r] ∧
     (GetToken (NewLexer "@ab".toList)).2.src = (NewLexer "@ab".toList).src.tail ∧
     (GetToken (NewLexer "@ab".toList)).2.eof = (NewLexer "@ab".toList).src.isEmpty) ∧
    remaining (GetToken (NewLexer "@ab".toList)).2 < remaining (NewLexer "@ab".toList) :=
  ⟨(getToken_unknown_fallback_and_progress (NewLexer "@ab".toList) (by decide) (by decide)).1
      (by decide) (by decide) (by decide) (by decide) (by decide) (by decide) (by decide),
   (getToken_unknown_fallback_and_progress (NewLexer "@ab".toList) (by decide) (by decide)).2⟩

set_option maxRecDepth 8000 in
/-- C3: the five numeric examples.  "0x1A" gives an integer-typed number
token of value 26; "0755" gives an integer-typed number token of value
493; "3.14e-2" gives a float-typed number token of value 0.0314 (the
exact rational 314/10000, reduced to lowest terms, in this embedding); "0x" gives the
invalid-format error; thirty consecutive 9 digits give the
range-overflow error. -/
theorem cNumberParser_examples :
    (cNumberParser (NewLexer "0x1A".toList)).1 = (TokenType.TOKEN_NUMBER, none) ∧
    (cNumberParser (NewLexer "0x1A".toList)).2.value =
      some { type := NumberType.NUMBER_TYPE_INTEGER, integer := 26, float := (0, 1) } ∧
    (cNumberParser (NewLexer "0755".toList)).1 = (TokenType.TOKEN_NUMBER, none) ∧
    (cNumberParser (NewLexer "0755".toList)).2.value =
      some { type := NumberType.NUMBER_TYPE_INTEGER, integer := 493, float := (0, 1) } ∧
    (cNumberParser (NewLexer "3.14e-2".toList)).1 = (TokenType.TOKEN_NUMBER, none) ∧
    (cNumberParser (NewLexer "3.14e-2".toList)).2.value =
      some { type := NumberType.NUMBER_TYPE_FLOAT, integer := 0, float := ratNorm 314 10000 } ∧
    (cNumberParser (NewLexer "0x".toList)).1 =
      (TokenType.TOKEN_NULL, some NumError.InvalidNumberFormatError) ∧
    (cNumberParser (NewLexer (List.replicate 30 '9'))).1 =
      (TokenType.TOKEN_NULL, some NumError.MaximumNumberRangeError) := by
  decide

set_option maxRecDepth 8000 in
/-- C4 failing input: on the literal consisting of the lone character
'0', `cNumberParser` consumes the '0' in its base dispatch without ever
appending it to the token buffer, so the octal body is empty, the
integer conversion sees an empty literal, and the parser returns the
invalid-format error instead of an integer token of value zero. -/
theorem cNumberParser_lone_zero_rejected :
    (cNumberParser (NewLexer "0".toList)).1 =
      (TokenType.TOKEN_NULL, some NumError.InvalidNumberFormatError) ∧
    (cNumberParser (NewLexer "0".toList)).2.value = none := by
  decide

set_option maxRecDepth 8000 in
/-- C6 failing input: on the literal "0." (a zero with an empty
fractional part), neither of the two malformations named by the claim is
present, yet `cNumberParser` returns the invalid-format error: the
leading '0' is never appended to the buffer, so the float conversion
sees the literal "." with no mantissa digit. -/
theorem cNumberParser_zero_dot_rejected :
    (cNumberParser (NewLexer "0.".toList)).1 =
      (TokenType.TOKEN_NULL, some NumError.InvalidNumberFormatError) ∧
    (cNumberParser (NewLexer "0.".toList)).2.value = none := by
  decide

/-- C7 counterexample: scanning "ab c", the first token is the identifier
"ab" with LinePos 3, the cursor position after the parser consumed the
token and read the following lookahead character, whereas the cursor
stood at position 1 when the token started, so the token does not carry
its start position. -/
theorem token_position_counterexample :
    (GetToken (NewLexer "ab c".toList)).1.1 =
      { type := TokenType.TOKEN_IDENTIFIER, literal := "ab", lineNumber := 0, linePos := 3 } ∧
    (NewLexer "ab c".toList).pos = 1 ∧ (3 : Nat) ≠ 1 := by
  decide

theorem token_fields (s : LexState) (ty : TokenType) :
    (token s ty).1.lineNumber = (token s ty).2.lineno ∧
    (token s ty).1.linePos = (token s ty).2.pos ∧
    (token s ty).2.lastToken = (token s ty).1 := by
  simp [token]

theorem runParsers_token_fields :
    ∀ (ps : List (LexState → TokenType × LexState)) (s : LexState),
      (runParsers ps s).1.lineNumber = (runParsers ps s).2.lineno ∧
      (runParsers ps s).1.linePos = (runParsers ps s).2.pos ∧
      (runParsers ps s).2.lastToken = (runParsers ps s).1 := by
  intro ps
  induction ps with
  | nil =>
      intro s
      simp only [runParsers]
      exact token_fields _ _
  | cons p ps ih =>
      intro s
      rcases hp : p s with ⟨ty, s'⟩
      simp only [runParsers, hp]
      by_cases hty : ty = TokenType.TOKEN_NULL
      · simp only [hty, if_true]
        exact ih s'
      · simp only [hty, if_false]
        exact token_fields s' ty

/-- C7 amended: every token returned by a `GetToken` call that actually
scans (empty putback stack) carries as its LineNumber and LinePos the
cursor's line and position at the time the token is constructed, i.e.
after the matching parser consumed the token's characters and lookahead
(these equal the line and position of the state `GetToken` returns), not
the position recorded at the start of the token; the token is also
recorded as the lexer's lastToken. -/
theorem scanned_token_position (s : LexState) (hpb : s.putbackTokens = []) :
    (GetToken s).1.1.lineNumber = (GetToken s).2.lineno ∧
    (GetToken s).1.1.linePos = (GetToken s).2.pos ∧
    (GetToken s).2.lastToken = (GetToken s).1.1 := by
  have hget : GetToken s = scanToken s := by simp [GetToken, hpb]
  rw [hget]
  simp only [scanToken]
  by_cases hwe : (DefaultWhitespaceParser s).2.eof = true
  · rw [if_pos hwe]
    exact token_fields _ _
  · rw [if_neg hwe]
    exact runParsers_token_fields _ _

/-- Witness for the amended C7 at the concrete input "ab c". -/
theorem scanned_token_position_witness :
    (GetToken (NewLexer "ab c".toList)).1.1.lineNumber = (GetToken (NewLexer "ab c".toList)).2.lineno ∧
    (GetToken (NewLexer "ab c".toList)).1.1.linePos = (GetToken (NewLexer "ab c".toList)).2.pos ∧
    (GetToken (NewLexer "ab c".toList)).2.lastToken = (GetToken (NewLexer "ab c".toList)).1.1 :=
  scanned_token_position (NewLexer "ab c".toList) (by decide)

/-- C8 counterexample: after scanning the identifier "ab" to exhaustion,
the next `GetToken` returns the end-of-stream token, and its literal is
the leftover buffer text "ab" of the previous token, not the empty
string: the buffer reset happens after the end-of-input check. -/
theorem eof_token_leftover_literal :
    (GetToken (GetToken (NewLexer "ab".toList)).2).1.1 =
      { type := TokenType.TOKEN_EOF, literal := "ab", lineNumber := 0, linePos := 2 } ∧
    "ab" ≠ "" := by
  decide

theorem NextRune_setBuf (s : LexState) (b : List Char) :
    NextRune { s with buf := b } = { NextRune s with buf := b } := by
  by_cases he : s.eof
  · simp [NextRune, he]
  · cases hs : s.src with
    | nil => simp [NextRune, he, hs]
    | cons c cs => by_cases hnl : c = '\n' <;> simp [NextRune, he, hs, hnl]

theorem wsLoop_setBuf :
    ∀ (f : Nat) (s : LexState) (b : List Char),
      DefaultWhitespaceParserLoop f { s with buf := b }
        = { DefaultWhitespaceParserLoop f s with buf := b } := by
  intro f
  induction f with
  | zero => intro s b; rfl
  | succ f ih =>
      intro s b
      simp only [DefaultWhitespaceParserLoop]
      rw [NextRune_setBuf s b]
      cases hsp : unicodeIsSpace s.r with
      | false => simp [hsp]
      | true =>
          by_cases hn : (NextRune s).r = nulRune
          · simp [hsp, hn]
          · simp only [hsp, hn, if_true, if_false]
            rw [ih (NextRune s) b]

/-- C8 amended: at the top of a `GetToken` call with an empty putback
stack, the buffer contents are irrelevant to scanning: the buffer is
reset before any chain parser runs, so whenever the whitespace skip does
not exhaust the cursor the call's entire result is independent of the
incoming buffer; the end-of-stream token, however, is built before the
reset, so when the skip ends at end-of-input its literal is exactly the
leftover buffer text of the previous token. -/
theorem buffer_reset_amended (s : LexState) (b : List Char)
    (hpb : s.putbackTokens = []) :
    ((DefaultWhitespaceParser { s with buf := b }).2.eof = true →
        (GetToken { s with buf := b }).1.1.type = TokenType.TOKEN_EOF ∧
        (GetToken { s with buf := b }).1.1.literal = b.asString) ∧
    ((DefaultWhitespaceParser { s with buf := b }).2.eof = false →
        GetToken { s with buf := b } = GetToken { s with buf := [] }) := by
  have hget1 : GetToken { s with buf := b } = scanToken { s with buf := b } := by
    simp [GetToken, hpb]
  have hget2 : GetToken { s with buf := [] } = scanToken { s with buf := [] } := by
    simp [GetToken, hpb]
  have hws : (DefaultWhitespaceParser { s with buf := b }).2
      = { (DefaultWhitespaceParser s).2 with buf := b } := by
    simp only [DefaultWhitespaceParser]
    exact wsLoop_setBuf _ s b
  have hws0 : (DefaultWhitespaceParser { s with buf := [] }).2
      = { (DefaultWhitespaceParser s).2 with buf := [] } := by
    simp only [DefaultWhitespaceParser]
    exact wsLoop_setBuf _ s []
  constructor
  · intro hwe
    rw [hws] at hwe
    rw [hget1]
    simp only [scanToken, hws]
    rw [if_pos hwe]
    exact ⟨rfl, rfl⟩
  · intro hwe
    rw [hws] at hwe
    rw [hget1, hget2]
    simp only [scanToken, hws, hws0]
    have hwe0 : ({ (DefaultWhitespaceParser s).2 with buf := ([] : List Char) }).eof = false := hwe
    rw [if_neg (by rw [hwe]; exact Bool.false_ne_true),
        if_neg (by rw [hwe0]; exact Bool.false_ne_true)]

/-- Witness for the amended C8: an exhausted lexer state with buffer
contents "x" yields an EOF token whose literal is "x". -/
theorem buffer_reset_amended_witness :
    (GetToken { (GetToken (NewLexer "ab".toList)).2 with buf := ['x'] }).1.1.type
        = TokenType.TOKEN_EOF ∧
    (GetToken { (GetToken (NewLexer "ab".toList)).2 with buf := ['x'] }).1.1.literal
        = ['x'].asString :=
  (buffer_reset_amended (GetToken (NewLexer "ab".toList)).2 ['x'] (by decide)).1 (by decide)

theorem NextRune_r_cons (s : LexState) (c : Char) (cs : List Char)
    (he : s.eof = false) (hs : s.src = c :: cs) : (NextRune s).r = c := by
  by_cases hnl : c = '\n' <;> simp [NextRune, he, hs, hnl]

theorem qsLoopA_spec (mark : Char) (hm : mark ≠ nulRune) :
    ∀ (src : List Char) (f : Nat) (s : LexState),
      s.src = src → s.eof = false → nulRune ∉ src → src.length + 1 ≤ f →
      (DefaultQuotedStringParserLoop mark f s).buf
          = s.buf ++ src.takeWhile (fun c => c != mark) ∧
      (DefaultQuotedStringParserLoop mark f s).r
          = (if mark ∈ src then mark else nulRune) ∧
      (DefaultQuotedStringParserLoop mark f s).src
          = (src.dropWhile (fun c => c != mark)).tail ∧
      (DefaultQuotedStringParserLoop mark f s).eof
          = (if mark ∈ src then false else true) := by
  intro src
  induction src with
  | nil =>
      intro f s hs he hn hf
      cases f with
      | zero => simp at hf
      | succ f =>
          have hnr : NextRune s = { s with r := nulRune, eof := true } := by
            simp [NextRune, he, hs]
          simp only [DefaultQuotedStringParserLoop, hnr]
          refine ⟨by simp, by simp, by simp [hs], by simp⟩
  | cons c cs ih =>
      intro f s hs he hn hf
      cases f with
      | zero => simp at hf
      | succ f =>
          have hcnul : c ≠ nulRune := fun h => hn (List.mem_cons.mpr (Or.inl h.symm))
          have hnr : (NextRune s).r = c := NextRune_r_cons s c cs he hs
          have hnsrc : (NextRune s).src = cs := by
            rw [NextRune_src s he, hs]; rfl
          have hneof : (NextRune s).eof = false := by
            rw [NextRune_eofOut s he, hs]; rfl
          have hnbuf : (NextRune s).buf = s.buf := NextRune_buf s
          simp only [DefaultQuotedStringParserLoop]
          rw [if_neg (show ¬((NextRune s).r = nulRune) by rw [hnr]; exact hcnul)]
          by_cases hcm : c = mark
          · rw [if_pos (show (NextRune s).r = mark by rw [hnr, hcm])]
            refine ⟨?_, ?_, ?_, ?_⟩
            · rw [hnbuf]; simp [List.takeWhile_cons, hcm]
            · rw [hnr, hcm]; simp
            · rw [hnsrc]; simp [List.dropWhile_cons, hcm]
            · rw [hneof]; simp [hcm]
          · rw [if_neg (show ¬((NextRune s).r = mark) by rw [hnr]; exact hcm)]
            have hmc : ¬ (mark = c) := fun h => hcm h.symm
            have hcs : nulRune ∉ cs := fun h => hn (List.mem_cons_of_mem c h)
            have hfl : cs.length + 1 ≤ f := by
              simp only [List.length_cons] at hf
              omega
            obtain ⟨ihbuf, ihr, ihsrc, iheof⟩ :=
              ih f (AppendRune (NextRune s)) hnsrc hneof hcs hfl
            refine ⟨?_, ?_, ?_, ?_⟩
            · rw [ihbuf]
              have hab : (AppendRune (NextRune s)).buf = s.buf ++ [c] := by
                simp [AppendRune, hnbuf, hnr]
              rw [hab]
              simp [List.takeWhile_cons, hcm]
            · rw [ihr]
              simp [List.mem_cons, hmc]
            · rw [ihsrc]
              simp [List.dropWhile_cons, hcm]
            · rw [iheof]
              simp [List.mem_cons, hmc]

theorem qsLoopV2_eq (mark : Char) :
    ∀ (src : List Char) (f : Nat) (s : LexState),
      s.src = src → s.eof = false → nulRune ∉ src → src.length + 1 ≤ f →
      DefaultQuotedStringParserLoopV2 mark f s
        = NextRune (DefaultQuotedStringParserLoop mark f s) := by
  intro src
  induction src with
  | nil =>
      intro f s hs he hn hf
      cases f with
      | zero => simp at hf
      | succ f =>
          have hnr : NextRune s = { s with r := nulRune, eof := true } := by
            simp [NextRune, he, hs]
          simp only [DefaultQuotedStringParserLoopV2, DefaultQuotedStringParserLoop, hnr]
          simp [NextRune]
  | cons c cs ih =>
      intro f s hs he hn hf
      cases f with
      | zero => simp at hf
      | succ f =>
          have hcnul : c ≠ nulRune := fun h => hn (List.mem_cons.mpr (Or.inl h.symm))
          have hnr : (NextRune s).r = c := NextRune_r_cons s c cs he hs
          have hnsrc : (NextRune s).src = cs := by
            rw [NextRune_src s he, hs]; rfl
          have hneof : (NextRune s).eof = false := by
            rw [NextRune_eofOut s he, hs]; rfl
          have hcs : nulRune ∉ cs := fun h => hn (List.mem_cons_of_mem c h)
          have hfl : cs.length + 1 ≤ f := by
            simp only [List.length_cons] at hf
            omega
          simp only [DefaultQuotedStringParserLoopV2, DefaultQuotedStringParserLoop]
          rw [if_neg (show ¬((NextRune s).r = nulRune) by rw [hnr]; exact hcnul),
              if_neg (show ¬((NextRune s).r = nulRune) by rw [hnr]; exact hcnul)]
          by_cases hcm : c = mark
          · rw [if_pos (show (NextRune s).r = mark by rw [hnr, hcm]),
                if_pos (show (NextRune s).r = mark by rw [hnr, hcm])]
          · rw [if_neg (show ¬((NextRune s).r = mark) by rw [hnr]; exact hcm),
                if_neg (show ¬((NextRune s).r = mark) by rw [hnr]; exact hcm)]
            exact ih f (AppendRune (NextRune s)) hnsrc hneof hcs hfl

/-- C5 counterexample: on the input with cursor at the opening quote of
"ab" followed by 'x' (source text with a closing quote before 'x'), the
lexer.go quoted string parser returns with the cursor still ON the
closing quote mark (current rune is the quote, the character 'x' after
it is still unread in the source), so it does not leave the cursor
advanced past the closing quote. -/
theorem quoted_string_counterexample :
    (DefaultQuotedStringParser (NewLexer ('"' :: 'a' :: 'b' :: '"' :: 'x' :: []))).1
        = TokenType.TOKEN_STRING ∧
    (DefaultQuotedStringParser (NewLexer ('"' :: 'a' :: 'b' :: '"' :: 'x' :: []))).2.r = '"' ∧
    (DefaultQuotedStringParser (NewLexer ('"' :: 'a' :: 'b' :: '"' :: 'x' :: []))).2.src = ['x'] ∧
    (DefaultQuotedStringParser (NewLexer ('"' :: 'a' :: 'b' :: '"' :: 'x' :: []))).2.r ≠ 'x' := by
  decide

/-- C5 amended: for every cursor standing on a '"' or '\x27' quote mark
(with a source free of the NUL sentinel), the lexer.go quoted string
parser returns a string token whose appended literal is exactly the
characters up to and excluding the next occurrence of the same mark; it
leaves the cursor ON the closing mark (sentinel and end-of-input when no
closing mark occurs, consuming to end-of-input and still producing a
string token rather than an error); the part_000 variant behaves
identically except that it additionally advances once at the closing
mark, i.e. it is the lexer.go parser followed by one `NextRune`. -/
theorem quoted_string_amended (s : LexState)
    (hq : s.r = '"' ∨ s.r = Char.ofNat 39) (he : s.eof = false)
    (hn : nulRune ∉ s.src) :
    (DefaultQuotedStringParser s).1 = TokenType.TOKEN_STRING ∧
    (DefaultQuotedStringParser s).2.buf
        = s.buf ++ s.src.takeWhile (fun c => c != s.r) ∧
    (DefaultQuotedStringParser s).2.r = (if s.r ∈ s.src then s.r else nulRune) ∧
    (DefaultQuotedStringParser s).2.src
        = (s.src.dropWhile (fun c => c != s.r)).tail ∧
    (DefaultQuotedStringParser s).2.eof = (if s.r ∈ s.src then false else true) ∧
    DefaultQuotedStringParserV2 s
        = (TokenType.TOKEN_STRING, NextRune (DefaultQuotedStringParser s).2) := by
  have hm : s.r ≠ nulRune := by
    rcases hq with h | h <;> rw [h] <;> decide
  have hguard : (s.r == '"' || s.r == Char.ofNat 39) = true := by
    rcases hq with h | h <;> simp [h]
  have hps : DefaultQuotedStringParser s
      = (TokenType.TOKEN_STRING, DefaultQuotedStringParserLoop s.r (s.src.length + 1) s) := by
    simp only [DefaultQuotedStringParser, hguard, if_true]
  have hps2 : DefaultQuotedStringParserV2 s
      = (TokenType.TOKEN_STRING, DefaultQuotedStringParserLoopV2 s.r (s.src.length + 1) s) := by
    simp only [DefaultQuotedStringParserV2, hguard, if_true]
  obtain ⟨hbuf, hr, hsrc, heof⟩ :=
    qsLoopA_spec s.r hm s.src (s.src.length + 1) s rfl he hn (Nat.le_refl _)
  refine ⟨by rw [hps], ?_, ?_, ?_, ?_, ?_⟩
  · rw [hps]; exact hbuf
  · rw [hps]; exact hr
  · rw [hps]; exact hsrc
  · rw [hps]; exact heof
  · rw [hps2, hps]
    exact congrArg (Prod.mk TokenType.TOKEN_STRING)
      (qsLoopV2_eq s.r s.src (s.src.length + 1) s rfl he hn (Nat.le_refl _))

/-- Witness for the amended C5 at the concrete input with source
"ab"x after the opening quote. -/
theorem quoted_string_amended_witness :
    (DefaultQuotedStringParser (NewLexer ('"' :: 'a' :: 'b' :: '"' :: 'x' :: []))).1
        = TokenType.TOKEN_STRING ∧
    (DefaultQuotedStringParser (NewLexer ('"' :: 'a' :: 'b' :: '"' :: 'x' :: []))).2.buf
        = (NewLexer ('"' :: 'a' :: 'b' :: '"' :: 'x' :: [])).buf ++
            (NewLexer ('"' :: 'a' :: 'b' :: '"' :: 'x' :: [])).src.takeWhile
              (fun c => c != (NewLexer ('"' :: 'a' :: 'b' :: '"' :: 'x' :: [])).r) ∧
    (DefaultQuotedStringParser (NewLexer ('"' :: 'a' :: 'b' :: '"' :: 'x' :: []))).2.r
        = (if (NewLexer ('"' :: 'a' :: 'b' :: '"' :: 'x' :: [])).r ∈
              (NewLexer ('"' :: 'a' :: 'b' :: '"' :: 'x' :: [])).src
           then (NewLexer ('"' :: 'a' :: 'b' :: '"' :: 'x' :: [])).r else nulRune) ∧
    (DefaultQuotedStringParser (NewLexer ('"' :: 'a' :: 'b' :: '"' :: 'x' :: []))).2.src
        = ((NewLexer ('"' :: 'a' :: 'b' :: '"' :: 'x' :: [])).src.dropWhile
            (fun c => c != (NewLexer ('"' :: 'a' :: 'b' :: '"' :: 'x' :: [])).r)).tail ∧
    (DefaultQuotedStringParser (NewLexer ('"' :: 'a' :: 'b' :: '"' :: 'x' :: []))).2.eof
        = (if (NewLexer ('"' :: 'a' :: 'b' :: '"' :: 'x' :: [])).r ∈
              (NewLexer ('"' :: 'a' :: 'b' :: '"' :: 'x' :: [])).src then false else true) ∧
    DefaultQuotedStringParserV2 (NewLexer ('"' :: 'a' :: 'b' :: '"' :: 'x' :: []))
        = (TokenType.TOKEN_STRING,
            NextRune (DefaultQuotedStringParser (NewLexer ('"' :: 'a' :: 'b' :: '"' :: 'x' :: []))).2) :=
  quoted_string_amended (NewLexer ('"' :: 'a' :: 'b' :: '"' :: 'x' :: []))
    (Or.inl (by decide)) (by decide) (by decide)
